import Mathlib

/-!
# Verification of `easy-qt-models`

A shallow embedding in Lean 4 of the parts of the `easy_qt_models` Python
package relevant to the frozen claims:

* `base_collection.py` — `ModelField`, `ModelRecord`, `ModelCollection`:
  the record heap is embedded as functions from record ids (`Nat`, standing
  for the unique `record_key` of each `ModelRecord`) to their mutable
  attributes (`parent`, `child_records`, `fields`).  Python mutation becomes
  `Function.update`; Python exceptions become `Option.none` results.
* `base_model.py` — `EasyModel`: `QModelIndex` is embedded as either the
  invalid index or `createIndex(row, column, internal record)`.
* `search.py` — `EasySearchModel` and `nonconsecutive_match`.

Python list indexing (negative indices allowed, `IndexError` out of range)
and `list.insert` (clamping) are modelled by `pyGet` / `pyInsert`.
-/

/-- Python sequence indexing `xs[i]`: non-negative indices from the front,
negative indices from the back, `none` for the out-of-range `IndexError`. -/
def pyGet (xs : List α) (i : Int) : Option α :=
  if 0 ≤ i then xs.get? i.toNat
  else
    let j : Int := (xs.length : Int) + i
    if 0 ≤ j then xs.get? j.toNat else none

/-- The effective position used by Python `list.insert`: non-negative
positions clamp to the length, negative positions count from the back and
clamp to 0. -/
def pyInsertIdx (len : Nat) (i : Int) : Nat :=
  if 0 ≤ i then min i.toNat len else ((len : Int) + i).toNat

/-- Python `xs.insert(i, x)`: inserts before index `i`, clamping out-of-range
positions (negative positions count from the back). -/
def pyInsert (xs : List α) (i : Int) (x : α) : List α :=
  xs.take (pyInsertIdx xs.length i) ++ x :: xs.drop (pyInsertIdx xs.length i)

/-- The state of a `ModelCollection` together with the heap of all
`ModelRecord` objects ever constructed.  Record ids play the role of the
unique `record_key` (a uuid in the source), so Python `==` on records is id
equality. -/
structure ModelCollection where
  /-- `record.parent` for each record id (`none` = root level / detached). -/
  recParent : Nat → Option Nat
  /-- `record.child_records` for each record id. -/
  recChildren : Nat → List Nat
  /-- `record.fields` for each record id; each field is represented by its
  `header_label` attribute (`none` = no label), which is all the claims
  inspect besides the number of fields. -/
  recFields : Nat → List (Option String)
  /-- `ModelCollection.child_records` (the root list). -/
  rootChildren : List Nat
  /-- `ModelCollection.column_count`. -/
  column_count : Nat
  /-- `ModelCollection._default_header_labels`. -/
  defaultHeaderLabels : List (Option String)
  /-- `ModelCollection.combine_header_labels`. -/
  combine_header_labels : Bool

namespace ModelRecord

/-- `ModelRecord.append_record` (base_collection.py:293-296): append `child`
to `self`'s child list and set `child.parent = self`.  `self` is the record
id `r` in collection state `c`. -/
def append_record (c : ModelCollection) (r child : Nat) : ModelCollection :=
  { c with
    recChildren := Function.update c.recChildren r (c.recChildren r ++ [child])
    recParent := Function.update c.recParent child (some r) }

/-- `ModelRecord.insert_record` (base_collection.py:298-301): insert `child`
at `position` in `self`'s child list and set `child.parent = self`. -/
def insert_record (c : ModelCollection) (r : Nat) (position : Int) (child : Nat) :
    ModelCollection :=
  { c with
    recChildren := Function.update c.recChildren r (pyInsert (c.recChildren r) position child)
    recParent := Function.update c.recParent child (some r) }

end ModelRecord

namespace ModelCollection

/-- Python `s.endswith(suffix)`: `suffix` is a suffix of `s` (modelled over
the character lists so it evaluates in the kernel). -/
def strEndsWith (s suffix : String) : Bool :=
  suffix.toList.isSuffixOf s.toList

/-- `ModelCollection._update_default_header_labels`, per-column body for a
column that already existed (`i + 1 <= header_label_len`): the try block,
the `new_label is None` / `label_for_column is None` checks, the `endswith`
collision test and the pipe-combining.  `old` is `header_labels[i]`, `fl` is
`fields[i].header_label` when field `i` exists (`none` = `IndexError`,
caught by the `except IndexError: continue`). -/
def columnTransition (combine : Bool) (old : Option String)
    (fl : Option (Option String)) : Option String :=
  match fl with
  | none => old
  | some none => old
  | some (some nl) =>
    match old with
    | none => some nl
    | some l1 =>
      if strEndsWith l1 nl then some l1
      else if combine then some (l1 ++ " | " ++ nl) else some l1

/-- The loop of `_update_default_header_labels` (base_collection.py:603-635):
`i` is the loop variable, `count` the remaining iterations (initially
`column_count`), `staleLen` the length `header_label_len` captured before
the loop.  In the `i + 1 > header_label_len` branch, `fields[i]` is read
without any exception handler, so a missing field aborts with `none`. -/
def updateLabelsAux (combine : Bool) (fieldLabels : List (Option String))
    (staleLen : Nat) : List (Option String) → Nat → Nat → Option (List (Option String))
  | labels, _, 0 => some labels
  | labels, i, count + 1 =>
    if staleLen ≤ i then
      match fieldLabels.get? i with
      | none => none
      | some fl => updateLabelsAux combine fieldLabels staleLen (labels ++ [fl]) (i + 1) count
    else
      match labels.get? i with
      | none => updateLabelsAux combine fieldLabels staleLen labels (i + 1) count
      | some old =>
        updateLabelsAux combine fieldLabels staleLen
          (labels.set i (columnTransition combine old (fieldLabels.get? i))) (i + 1) count

/-- `ModelCollection._update_default_header_labels` (base_collection.py:590-635). -/
def updateDefaultHeaderLabels (combine : Bool) (column_count : Nat)
    (fieldLabels : List (Option String)) (labels : List (Option String)) :
    Option (List (Option String)) :=
  updateLabelsAux combine fieldLabels labels.length labels 0 column_count

/-- `ModelCollection._update_column_count` (base_collection.py:586-588):
`column_count = max((new_count, column_count))`. -/
def updateColumnCount (c : ModelCollection) (new_count : Nat) : ModelCollection :=
  { c with column_count := max new_count c.column_count }

/-- `ModelCollection.append_record` (base_collection.py:523-535): update the
column count from `len(record.fields)`, append under `parent` (root list when
`none`, else `ModelRecord.append_record`), then update the default header
labels; `none` when the header-label loop raises `IndexError`. -/
def append_record (c : ModelCollection) (rid : Nat) (parent : Option Nat) :
    Option ModelCollection :=
  let c1 := c.updateColumnCount (c.recFields rid).length
  let c2 := match parent with
    | none =>
        { c1 with
          rootChildren := c1.rootChildren ++ [rid]
          recParent := Function.update c1.recParent rid none }
    | some p => ModelRecord.append_record c1 p rid
  match updateDefaultHeaderLabels c2.combine_header_labels c2.column_count
      (c2.recFields rid) c2.defaultHeaderLabels with
  | none => none
  | some labels => some { c2 with defaultHeaderLabels := labels }

/-- `ModelCollection.insert_record` (base_collection.py:550-561): insert
under `parent` (root list when `none`), then update the column count.  No
header-label update happens here, mirroring the source. -/
def insert_record (c : ModelCollection) (position : Int) (rid : Nat)
    (parent : Option Nat) : ModelCollection :=
  let c1 := match parent with
    | none =>
        { c with
          rootChildren := pyInsert c.rootChildren position rid
          recParent := Function.update c.recParent rid none }
    | some p => ModelRecord.insert_record c p position rid
  c1.updateColumnCount (c.recFields rid).length

/-- `ModelCollection.remove_record` (base_collection.py:563-569): root-level
records are removed with `list.remove` (first occurrence; `ValueError`, i.e.
`none`, when absent); records with a parent go through
`ModelRecord.remove_record`, whose `except ValueError` fallback removes by
`record_key` and silently does nothing when the child is absent. -/
def remove_record (c : ModelCollection) (rid : Nat) : Option ModelCollection :=
  match c.recParent rid with
  | none =>
    if rid ∈ c.rootChildren then
      some { c with rootChildren := c.rootChildren.erase rid }
    else none
  | some p =>
    some { c with recChildren := Function.update c.recChildren p ((c.recChildren p).erase rid) }

/-- `ModelCollection.reparent_record` (base_collection.py:576-584): remove
the child from its old parent (the collection itself when `parent is None`),
then `ModelRecord.append_record` it under the new parent. -/
def reparent_record (c : ModelCollection) (child newParent : Nat) :
    Option ModelCollection :=
  match c.remove_record child with
  | none => none
  | some c' => some (ModelRecord.append_record c' newParent child)

end ModelCollection

/-- A `QtCore.QModelIndex`: either the invalid index (`QModelIndex()`, also
standing for a `None` parent argument) or an index made by
`createIndex(row, column, record)` whose internal pointer is a record id. -/
inductive QModelIndex where
  | invalid
  | mk (row : Int) (col : Int) (rid : Nat)
deriving DecidableEq, Repr

/-- `parent_record.parent or self.model_collection` followed by
`.child_records` (base_model.py:140-144): the sibling list of record `p`,
i.e. the child list of its parent, or the collection's root list when its
parent is `None`. -/
def grandparentChildren (c : ModelCollection) (p : Nat) : List Nat :=
  match c.recParent p with
  | none => c.rootChildren
  | some gp => c.recChildren gp

namespace EasyModel

/-- `record_at_index(parent) or self.model_collection` followed by
`.child_records`: child list of the record an index points at, or the
collection's root list for the invalid index. -/
def parentChildrenList (c : ModelCollection) : QModelIndex → List Nat
  | .invalid => c.rootChildren
  | .mk _ _ rid => c.recChildren rid

/-- `EasyModel.rowCount` (base_model.py:175-179). -/
def rowCount (c : ModelCollection) (parent : QModelIndex) : Nat :=
  (parentChildrenList c parent).length

/-- `EasyModel.hasIndex` (base_model.py:64-76): True exactly when
`parent_record.child_records[row_number].fields[column_number]` does not
raise `IndexError` (Python indexing, so negative coordinates index from the
back). -/
def hasIndex (c : ModelCollection) (row col : Int) (parent : QModelIndex) : Bool :=
  match pyGet (parentChildrenList c parent) row with
  | none => false
  | some rid => (pyGet (c.recFields rid) col).isSome

/-- `EasyModel.index` (base_model.py:78-92). -/
def index (c : ModelCollection) (row col : Int) (parent : QModelIndex) : QModelIndex :=
  if hasIndex c row col parent then
    match pyGet (parentChildrenList c parent) row with
    | some rid => QModelIndex.mk row col rid
    | none => QModelIndex.invalid
  else QModelIndex.invalid

/-- `EasyModel.parent` (base_model.py:123-147): invalid in, invalid out;
invalid for a record at the root of the collection; otherwise an index for
the parent record at column 0, with the row found by
`grandparent_record.child_records.index(parent_record)` (`none` models the
uncaught `ValueError` when the parent record is not in that list). -/
def parent (c : ModelCollection) : QModelIndex → Option QModelIndex
  | .invalid => some .invalid
  | .mk _ _ rid =>
    match c.recParent rid with
    | none => some .invalid
    | some p =>
      let gpChildren := grandparentChildren c p
      if p ∈ gpChildren then some (QModelIndex.mk (gpChildren.indexOf p) 0 p)
      else none

/-- The loop of `EasyModel.removeRows` (base_model.py:246-249): for each row
in `range(remove_start, remove_end)`, look up `child_records[row_number]` in
the *current* (already shrunken) child list and `remove_record` it; `none`
models an uncaught `IndexError`/`ValueError`. -/
def removeRowsLoop (c : ModelCollection) (parent : QModelIndex) (row : Int) :
    Nat → Option ModelCollection
  | 0 => some c
  | n + 1 =>
    match pyGet (parentChildrenList c parent) row with
    | none => none
    | some rid =>
      match c.remove_record rid with
      | none => none
      | some c' => removeRowsLoop c' parent (row + 1) n

/-- `EasyModel.removeRows` (base_model.py:213-253): invalid ranges return
`False` leaving the state unchanged; otherwise the removal loop runs and the
method returns `True`. -/
def removeRows (c : ModelCollection) (row_number row_count : Int)
    (parent : QModelIndex) : Option (Bool × ModelCollection) :=
  if row_number < 0 ∨ row_count < 1 ∨ (rowCount c parent : Int) < row_number + row_count then
    some (false, c)
  else
    (removeRowsLoop c parent row_number row_count.toNat).map (fun c' => (true, c'))

/-- The loop of `EasyModel.insert_records` (base_model.py:272-273):
`enumerate(records, start=position)` inserts each record at successive
positions under the parent record. -/
def insertRecordsLoop (c : ModelCollection) (parentRec : Option Nat) (position : Int) :
    List Nat → ModelCollection
  | [] => c
  | r :: rs => insertRecordsLoop (c.insert_record position r parentRec) parentRec (position + 1) rs

/-- `EasyModel.insert_records` (base_model.py:255-276): resolves the parent
record (root for a missing/invalid parent index), inserts every record at
successive positions, and returns `True`. -/
def insert_records (c : ModelCollection) (records : List Nat) (position : Int)
    (parent : QModelIndex) : Bool × ModelCollection :=
  let parentRec : Option Nat := match parent with
    | .invalid => none
    | .mk _ _ rid => some rid
  (true, insertRecordsLoop c parentRec position records)

end EasyModel

namespace EasySearchModel

/-- `QModelIndex.internalPointer()`: the record id carried by
`createIndex`, or Python `None` for the invalid index. -/
def internalPointer : QModelIndex → Option Nat
  | .invalid => none
  | .mk _ _ rid => some rid

/-- `QModelIndex.row()`: `-1` for the invalid index. -/
def qRow : QModelIndex → Int
  | .invalid => -1
  | .mk r _ _ => r

/-- `QModelIndex.parent()`: the invalid index for an invalid index,
otherwise the source model's `parent()` reimplementation. -/
def qParent (c : ModelCollection) : QModelIndex → Option QModelIndex
  | .invalid => some .invalid
  | idx => EasyModel.parent c idx

/-- `EasySortFilterModel.get_record_to_filter` (proxies.py:105-110):
`(parent_index.internalPointer() or self.collection).child_records[row_number]`;
`none` models the uncaught `IndexError`. -/
def get_record_to_filter (c : ModelCollection) (row : Int) (parent : QModelIndex) :
    Option Nat :=
  pyGet (EasyModel.parentChildrenList c parent) row

/-- `EasySearchModel.ancestors_pass_filter` (search.py:106-116): walk the
index's internal pointer up through `ancestor_index.parent()` until the
pointer is `None`, accepting as soon as one record passes.  `pf` is the
pure acceptance result of `record_passes_filter` for the filter column in
use (that method is embedded separately; its caching is studied in C8).
`fuel` bounds the walk; `none` means the walk did not finish in `fuel`
steps or `parent()` raised. -/
def ancestors_pass_filter (c : ModelCollection) (pf : Nat → Bool) :
    Nat → QModelIndex → Option Bool
  | fuel, idx =>
    match internalPointer idx with
    | none => some false
    | some rid =>
      if pf rid then some true
      else
        match fuel with
        | 0 => none
        | fuel + 1 =>
          match qParent c idx with
          | none => none
          | some idx' => ancestors_pass_filter c pf fuel idx'

/-- `EasySearchModel.descendants_pass_filter` (search.py:118-139), fused
with its per-row loop: `idx`'s child indexes are
`source_model.index(row, column, idx)` for each row; every child record is
fetched with `get_record_to_filter(child_index.row(), child_index.parent())`
and tested, recursing into its own children otherwise.  The worklist
argument carries the remaining rows at the current level; `fuel` bounds the
recursion depth. -/
def descendantsLoop (c : ModelCollection) (pf : Nat → Bool) (col : Int) :
    Nat → QModelIndex → List Nat → Option Bool
  | _, _, [] => some false
  | fuel, idx, row :: rest =>
    let ci := EasyModel.index c (row : Int) col idx
    match qParent c ci with
    | none => none
    | some pi =>
      match get_record_to_filter c (qRow ci) pi with
      | none => none
      | some childRec =>
        if pf childRec then some true
        else
          match fuel with
          | 0 => none
          | fuel + 1 =>
            match descendantsLoop c pf col fuel ci
                (List.range (EasyModel.rowCount c ci)) with
            | none => none
            | some true => some true
            | some false => descendantsLoop c pf col fuel idx rest

/-- `EasySearchModel.descendants_pass_filter` entry point. -/
def descendants_pass_filter (c : ModelCollection) (pf : Nat → Bool) (col : Int)
    (fuel : Nat) (idx : QModelIndex) : Option Bool :=
  descendantsLoop c pf col fuel idx (List.range (EasyModel.rowCount c idx))

/-- `EasySearchModel.filterAcceptsRow` (search.py:81-104): accept when the
row's own record passes; otherwise, only when `search_parents` is set, fall
back to the ancestor walk; otherwise, only when `search_children` is also
set, fall back to the descendant search.  `sp`/`sc` are the
`search_parents`/`search_children` attributes, `col` the
`filter_key_column`. -/
def filterAcceptsRow (c : ModelCollection) (pf : Nat → Bool) (sp sc : Bool)
    (col : Int) (fuel : Nat) (row : Int) (parent : QModelIndex) : Option Bool :=
  match get_record_to_filter c row parent with
  | none => none
  | some record =>
    let accepted := pf record
    if accepted || !sp then some accepted
    else
      match ancestors_pass_filter c pf fuel parent with
      | none => none
      | some anc =>
        if anc || !sc then some anc
        else descendants_pass_filter c pf col fuel (EasyModel.index c row col parent)

end EasySearchModel

/-- `b` is a proper descendant record of `a` through `child_records` links
(the records visited by `descendants_pass_filter`). -/
inductive IsDescendant (c : ModelCollection) : Nat → Nat → Prop where
  | direct {r i : Nat} : i ∈ c.recChildren r → IsDescendant c r i
  | step {r m i : Nat} : IsDescendant c r m → i ∈ c.recChildren m → IsDescendant c r i

/-- A record id is reachable from the collection root, i.e. it occurs in
`ModelCollection.all_records` (base_collection.py:678-687). -/
inductive Reach (c : ModelCollection) : Nat → Prop where
  | root {i : Nat} : i ∈ c.rootChildren → Reach c i
  | child {p i : Nat} : Reach c p → i ∈ c.recChildren p → Reach c i

namespace EasySearchModel

/-- The mutable search state of an `EasySearchModel`: the two-argument
`search_func`, the current search term `_search_for` (initially Python
`None`, hence an `Option`), and the result cache `_filter_cache`, a dict
keyed by record (records hash by their unique `record_key`, i.e. by id).
The filter-role data of the records is outside the proxy and is passed
separately as an environment `env : Nat → List Nat` giving each record's
`filter_by` data per column. -/
structure SearchState where
  search_func : Option Nat → Nat → Bool
  search_for : Option Nat
  filter_cache : Nat → Option Bool

/-- The uncached body of `record_passes_filter` (search.py:158-167): with
filter key column `-1`, apply `search_func(search_for, d)` to the data of
every column and accept when any column is accepted; otherwise apply it to
the data of that single column (`none` models the `IndexError` from
`record.data` on a nonexistent column). -/
def uncachedPasses (env : Nat → List Nat) (sf : Option Nat → Nat → Bool)
    (term : Option Nat) (rec : Nat) (col : Int) : Option Bool :=
  if col = -1 then
    some ((env rec).any (fun d => sf term d))
  else
    (pyGet (env rec) col).map (fun d => sf term d)

/-- `EasySearchModel.record_passes_filter` (search.py:141-170): return the
cached result when the record is a key of `_filter_cache`; otherwise compute
the uncached result and store it in the cache. -/
def record_passes_filter (env : Nat → List Nat) (m : SearchState) (rec : Nat)
    (col : Int) : Option (Bool × SearchState) :=
  match m.filter_cache rec with
  | some b => some (b, m)
  | none =>
    match uncachedPasses env m.search_func m.search_for rec col with
    | none => none
    | some b =>
      some (b, { m with filter_cache := Function.update m.filter_cache rec (some b) })

/-- The `search_for` property setter (search.py:177-182): reset
`_filter_cache` to a fresh dict, then assign the new term. -/
def setSearchFor (m : SearchState) (v : Option Nat) : SearchState :=
  { m with filter_cache := fun _ => none, search_for := v }

/-- `EasySearchModel.set_search_value` (search.py:184-186): assigns the
`search_for` property. -/
def set_search_value (m : SearchState) (v : Option Nat) : SearchState :=
  setSearchFor m v

/-- `EasySearchModel.flush_filter_cache` (search.py:213-222). -/
def flush_filter_cache (m : SearchState) : SearchState :=
  { m with filter_cache := fun _ => none }

/-- Cache coherence for a fixed filter column: every cached entry agrees
with the uncached computation at that column under the current term. -/
def CoherentAt (env : Nat → List Nat) (m : SearchState) (col : Int) : Prop :=
  ∀ r b, m.filter_cache r = some b →
    uncachedPasses env m.search_func m.search_for r col = some b

end EasySearchModel

/-- The post-anchor loop of `nonconsecutive_match` (search.py:289-302):
take each needle in turn, find its first position in the current haystack
(`ValueError`, i.e. `False`, when absent), and continue with
`haystack[needle_pos:-1]` — the slice that *keeps* the matched element and
*drops the final element* of the current haystack. -/
def nonconsecutiveLoop [BEq α] : List α → List α → Bool
  | [], _ => true
  | n :: rest, hay =>
    match hay.findIdx? (fun x => x == n) with
    | none => false
    | some pos => nonconsecutiveLoop rest ((hay.drop pos).dropLast)

/-- `nonconsecutive_match` (search.py:228-302).  The special cases come
first: equal sequences; non-empty needles against an empty haystack; empty
needles against a non-empty haystack.  With `anchored`, a first-element
mismatch returns `False` (the needle-stripping after that `return` in the
source is dead code, so nothing else happens). -/
def nonconsecutive_match [BEq α] (needles haystack : List α)
    (anchored : Bool) (empty_returns_true : Bool) : Bool :=
  if needles == haystack then true
  else if haystack.isEmpty && !needles.isEmpty then false
  else if needles.isEmpty && !haystack.isEmpty then empty_returns_true
  else if anchored && (needles.head? != haystack.head?) then false
  else nonconsecutiveLoop needles haystack

/-- The relation the claim and the source docstring describe: the needles
occur in the haystack in the same relative order, not necessarily
consecutively (stated from the spec's words, for comparison with
`nonconsecutive_match`). -/
def matchesAsSubsequence [BEq α] : List α → List α → Bool
  | [], _ => true
  | _ :: _, [] => false
  | n :: ns, h :: hs =>
    if n == h then matchesAsSubsequence ns hs else matchesAsSubsequence (n :: ns) hs

/-- The parent/child bookkeeping invariant of claim C9: every child's
`parent` pointer names the record whose `child_records` list holds it,
root-level records have `parent = None`, and no record occurs twice in one
child list. -/
def TreeInv (c : ModelCollection) : Prop :=
  (∀ i ∈ c.rootChildren, c.recParent i = none) ∧
  (∀ r i, i ∈ c.recChildren r → c.recParent i = some r) ∧
  c.rootChildren.Nodup ∧
  (∀ r, (c.recChildren r).Nodup)

/-- A record not currently held in any child list (a freshly-constructed
`ModelRecord` before it is placed in the collection). -/
def Detached (c : ModelCollection) (x : Nat) : Prop :=
  x ∉ c.rootChildren ∧ ∀ r, x ∉ c.recChildren r

/-- One collection-level mutation of claim C7: a `ModelCollection.append_record`
or `ModelCollection.insert_record` call. -/
inductive ColOp where
  | append (rid : Nat) (parent : Option Nat)
  | insert (position : Int) (rid : Nat) (parent : Option Nat)

/-- The record argument of a collection operation. -/
def ColOp.rid : ColOp → Nat
  | .append rid _ => rid
  | .insert _ rid _ => rid

/-- Run one collection operation. -/
def applyOp (c : ModelCollection) : ColOp → Option ModelCollection
  | .append rid parent => c.append_record rid parent
  | .insert position rid parent => some (c.insert_record position rid parent)

/-- Run a sequence of collection operations. -/
def applyOps (c : ModelCollection) : List ColOp → Option ModelCollection
  | [] => some c
  | op :: ops =>
    match applyOp c op with
    | none => none
    | some c' => applyOps c' ops

/-- A Python value as it flows through `ModelField.data`/`set_data`:
`none` is Python `None`; `fromAttrObj` stands for a `FromAttr` instance
stored as a plain value (which is what the `setattr` in `set_data` writes,
its `value` variable having been shadowed). -/
inductive PyVal where
  | none
  | bool (b : Bool)
  | str (s : String)
  | int (n : Int)
  | fromAttrObj (attr : String)
deriving DecidableEq, Repr

/-- The value of a `ModelField` role attribute: a plain value, a
`FromAttr(attr_name)`, or a `FromCallback` whose callback and bound
arguments are represented by the thunk obtained by applying the callback to
its stored `args`/`kwargs`. -/
inductive RoleValue where
  | plain (v : PyVal)
  | fromAttr (attr_name : String)
  | fromCallback (callback : Unit → PyVal)

/-- A Python object seen through `getattr`/`setattr`: its attribute map
(`none` = attribute absent, so `getattr` raises `AttributeError`). -/
structure PyObject where
  attrs : String → Option PyVal

/-- A constructed `ModelField`: its `user_data` and its role attributes
(`getattr(self, role_attr, None)` returns `none` when the attribute was
never set). -/
structure ModelField where
  user_data : PyObject
  roleAttrs : String → Option RoleValue

/-- `QT_ROLE_MAP` (base_collection.py:32-51), with the numeric values of the
`Qt.ItemDataRole` enumerators and of `USER_DATA_ROLE`/`SORT_ROLE`/
`FILTER_ROLE`. -/
def QT_ROLE_MAP : List (Int × String) :=
  [(0, "display"), (1, "decoration"), (2, "edit"), (3, "tool_tip"),
   (4, "status_tip"), (5, "whats_this"), (13, "size_hint"), (6, "font"),
   (7, "alignment"), (8, "background"), (9, "foreground"), (10, "checkstate"),
   (14, "default_sort_order"), (12, "accessible_desc"), (11, "accessible_text"),
   (256, "user_data"), (257, "sort_by"), (258, "filter_by")]

/-- `QT_ROLE_MAP[qt_role]` as a dict lookup (`none` = `KeyError`). -/
def roleAttrName (qt_role : Int) : Option String :=
  (QT_ROLE_MAP.find? (fun p => p.1 == qt_role)).map (fun p => p.2)

namespace ModelField

/-- `ModelField.data` (base_collection.py:214-231): unmapped roles return
`None`; otherwise the role attribute is read with a `None` default, a
`FromAttr` is resolved by `getattr(self.user_data, attr_name)` (the outer
`none` models the `AttributeError` when `user_data` lacks the attribute), a
`FromCallback` by invoking the callback, and anything else is returned as
is. -/
def data (f : ModelField) (qt_role : Int) : Option PyVal :=
  match roleAttrName qt_role with
  | Option.none => some PyVal.none
  | some ra =>
    match f.roleAttrs ra with
    | Option.none => some PyVal.none
    | some (.plain v) => some v
    | some (.fromAttr a) => f.user_data.attrs a
    | some (.fromCallback cb) => some (cb ())

/-- `ModelField.set_data` (base_collection.py:233-248): unmapped roles
return `False`; otherwise `getattr(self, role_attr)` (no default — `none`
models the `AttributeError` when absent), then a `FromAttr` triggers
`setattr(self.user_data, value.attr_name, value)` — where `value` has been
shadowed by the role attribute itself — and the method falls through
returning Python `None`; a `FromCallback` raises `NotImplementedError`
(`none`); any other value falls through returning `None`.  The `value`
argument of the method is never used past the shadowing, mirroring the
source. -/
def set_data (f : ModelField) (value : PyVal) (qt_role : Int) :
    Option (PyVal × ModelField) :=
  match roleAttrName qt_role with
  | Option.none => some (PyVal.bool false, f)
  | some ra =>
    match f.roleAttrs ra with
    | Option.none => Option.none
    | some (.fromAttr a) =>
      some (PyVal.none,
        { f with user_data := ⟨Function.update f.user_data.attrs a (some (PyVal.fromAttrObj a))⟩ })
    | some (.fromCallback _) => Option.none
    | some (.plain _) => some (PyVal.none, f)

end ModelField

/-! ## Concrete fixtures used by witnesses and counterexamples -/

/-- A collection with three root records and no nesting. -/
def cThree : ModelCollection :=
  { recParent := fun _ => none
    recChildren := fun _ => []
    recFields := fun _ => [none]
    rootChildren := [0, 1, 2]
    column_count := 1
    defaultHeaderLabels := [none]
    combine_header_labels := true }

/-- A collection with exactly two root records. -/
def cPair : ModelCollection :=
  { cThree with rootChildren := [0, 1] }

/-- A three-level chain: root record 0, its child 1, grandchild 2. -/
def cChain : ModelCollection :=
  { recParent := fun n => if n = 1 then some 0 else if n = 2 then some 1 else none
    recChildren := fun n => if n = 0 then [1] else if n = 1 then [2] else []
    recFields := fun _ => [some "x"]
    rootChildren := [0]
    column_count := 1
    defaultHeaderLabels := [some "x"]
    combine_header_labels := true }

/-- An empty collection over a heap of single-field records. -/
def cEmpty : ModelCollection :=
  { recParent := fun _ => none
    recChildren := fun _ => []
    recFields := fun _ => [none]
    rootChildren := []
    column_count := 0
    defaultHeaderLabels := []
    combine_header_labels := true }

/-- One root record, nothing else attached. -/
def cOneRoot : ModelCollection :=
  { cEmpty with rootChildren := [0] }

/-- Heap for the header-label scenarios: record 0 labels its single column
"name", record 1 labels it "age"; the collection starts empty and combines
labels. -/
def cLabels : ModelCollection :=
  { recParent := fun _ => none
    recChildren := fun _ => []
    recFields := fun n => if n = 0 then [some "name"] else [some "age"]
    rootChildren := []
    column_count := 0
    defaultHeaderLabels := []
    combine_header_labels := true }

/-- `cLabels` after appending record 0 at the root. -/
def cLabels1 : ModelCollection :=
  (cLabels.append_record 0 none).getD cLabels

/-- `cLabels1` after appending record 1 at the root. -/
def cLabels2 : ModelCollection :=
  (cLabels1.append_record 1 none).getD cLabels1

/-- `cLabels` with `combine_header_labels = False`. -/
def cLabelsF : ModelCollection :=
  { cLabels with combine_header_labels := false }

/-- `cLabelsF` after appending record 0. -/
def cLabelsF1 : ModelCollection :=
  (cLabelsF.append_record 0 none).getD cLabelsF

/-- Heap where record 0 has one unlabelled field and record 1 labels the
column "age". -/
def cMixed : ModelCollection :=
  { cLabels with recFields := fun n => if n = 0 then [none] else [some "age"] }

/-- `cMixed` after appending record 0 (one column, no label yet). -/
def cMixed1 : ModelCollection :=
  (cMixed.append_record 0 none).getD cMixed

/-- `cLabelsF1` after appending record 1 (collision, combining disabled). -/
def cLabelsF2 : ModelCollection :=
  (cLabelsF1.append_record 1 none).getD cLabelsF1

/-- `cMixed1` after appending record 1 (first label for the column). -/
def cMixed2 : ModelCollection :=
  (cMixed1.append_record 1 none).getD cMixed1

/-- C7 counterexample state: record 2 (three fields) is already a child of
record 1 (one field) through `ModelRecord.append_record`-style links, while
the collection itself is still empty. -/
def cSub : ModelCollection :=
  { recParent := fun n => if n = 2 then some 1 else none
    recChildren := fun n => if n = 1 then [2] else []
    recFields := fun n => if n = 2 then [none, none, none] else [none]
    rootChildren := []
    column_count := 0
    defaultHeaderLabels := []
    combine_header_labels := true }

/-- `cSub` after `ModelCollection.append_record(record 1)`. -/
def cSub' : ModelCollection :=
  (cSub.append_record 1 none).getD cSub

/-- Filter-data environment for the C8 scenarios: record 0 carries filter
data 1 in column 0 and 2 in column 1. -/
def envTwoCols : Nat → List Nat := fun _ => [1, 2]

/-- Search state with term 1, equality search function, empty cache. -/
def mFresh : EasySearchModel.SearchState :=
  { search_func := fun t d => t == some d
    search_for := some 1
    filter_cache := fun _ => none }

/-- `mFresh` after one `record_passes_filter(record 0, column 0)` call. -/
def mCached : EasySearchModel.SearchState :=
  match EasySearchModel.record_passes_filter envTwoCols mFresh 0 0 with
  | some p => p.2
  | none => mFresh

/-- The acceptance predicate of the C3 scenario: only record 1 passes the
search. -/
def pfOnlyOne : Nat → Bool := fun r => r == 1

/-- `cOneRoot` after `ModelCollection.append_record(record 5)` at the root. -/
def cRootApp : ModelCollection :=
  (cOneRoot.append_record 5 none).getD cOneRoot

/-- `cOneRoot` after reparenting record 0 under record 1. -/
def cRootRep : ModelCollection :=
  (cOneRoot.reparent_record 0 1).getD cOneRoot

/-- `cEmpty` after appending record 0 and then inserting record 1 through
the collection interface. -/
def cTrace : ModelCollection :=
  (applyOps cEmpty [ColOp.append 0 none, ColOp.insert 0 1 none]).getD cEmpty

/-- User data with a "name" attribute, for the C10 witness. -/
def poJohn : PyObject :=
  ⟨fun a => if a = "name" then some (PyVal.str "John") else none⟩

/-- A field whose `display` is `FromAttr("name")` and whose `edit` is a
callback returning 3. -/
def fldJohn : ModelField :=
  ⟨poJohn, fun ra =>
    if ra = "display" then some (RoleValue.fromAttr "name")
    else if ra = "edit" then some (RoleValue.fromCallback (fun _ => PyVal.int 3))
    else none⟩

/-! ## Theorems -/

/-- C2: whenever `hasIndex` reports that no field exists at the requested
coordinate, `EasyModel.index` returns the invalid index (base_model.py:86-87)
— it is a total function here, so in particular it does not raise. -/
theorem claim_C2_invalid_index_when_lookup_fails
    (c : ModelCollection) (row col : Int) (parent : QModelIndex)
    (h : EasyModel.hasIndex c row col parent = false) :
    EasyModel.index c row col parent = QModelIndex.invalid := by
  unfold EasyModel.index
  simp [h]

/-- Witness for C2: in a collection with three root records, row 5 has no
field, and `index(5, 0, invalid)` is the invalid index. -/
theorem claim_C2_invalid_index_when_lookup_fails_witness :
    EasyModel.hasIndex cThree 5 0 QModelIndex.invalid = false ∧
    EasyModel.index cThree 5 0 QModelIndex.invalid = QModelIndex.invalid :=
  ⟨rfl, claim_C2_invalid_index_when_lookup_fails cThree 5 0 QModelIndex.invalid rfl⟩

/-- C4 (code bug): `nonconsecutive_match` diverges from the subsequence
semantics that the claim and the function's own docstring describe.  The
docstring states `"mm" can be found in "matchmove", but not "move2d"`, yet
the code returns `True` for `("mm", "move2d")`: the slice
`haystack[needle_pos:-1]` keeps the matched element, so one haystack element
can satisfy two needles.  The docstring of `nonconsecutive_str_match` states
`"abc" matches "aabsomethingc"`, yet the code returns `False`: the same
slice drops the final haystack element, losing the trailing `"c"`. -/
theorem claim_C4_nonconsecutive_match_contradicts_subsequence_semantics :
    nonconsecutive_match "mm".toList "move2d".toList false true = true ∧
    matchesAsSubsequence "mm".toList "move2d".toList = false ∧
    nonconsecutive_match "abc".toList "aabsomethingc".toList false true = false ∧
    matchesAsSubsequence "abc".toList "aabsomethingc".toList = true :=
  ⟨rfl, rfl, rfl, rfl⟩

/-- C10: roles outside `QT_ROLE_MAP` make `ModelField.data` return `None`
and `ModelField.set_data` return `False`, neither raising; for mapped roles,
`data` resolves a `FromAttr` by reading that attribute of `user_data` and a
`FromCallback` by invoking the callback. -/
theorem claim_C10_unmapped_role_defensive_return :
    (∀ (f : ModelField) (role : Int),
        (∀ p ∈ QT_ROLE_MAP, p.1 ≠ role) → f.data role = some PyVal.none) ∧
    (∀ (f : ModelField) (v : PyVal) (role : Int),
        (∀ p ∈ QT_ROLE_MAP, p.1 ≠ role) →
        f.set_data v role = some (PyVal.bool false, f)) ∧
    (∀ (f : ModelField) (role : Int) (ra a : String),
        roleAttrName role = some ra →
        f.roleAttrs ra = some (RoleValue.fromAttr a) →
        f.data role = f.user_data.attrs a) ∧
    (∀ (f : ModelField) (role : Int) (ra : String) (cb : Unit → PyVal),
        roleAttrName role = some ra →
        f.roleAttrs ra = some (RoleValue.fromCallback cb) →
        f.data role = some (cb ())) := by
  have hnone : ∀ role : Int, (∀ p ∈ QT_ROLE_MAP, p.1 ≠ role) →
      roleAttrName role = none := by
    intro role h
    unfold roleAttrName
    rw [List.find?_eq_none.mpr]
    · rfl
    · intro p hp
      simpa using h p hp
  refine ⟨?_, ?_, ?_, ?_⟩
  · intro f role h
    unfold ModelField.data
    rw [hnone role h]
  · intro f v role h
    unfold ModelField.set_data
    rw [hnone role h]
  · intro f role ra a h1 h2
    simp [ModelField.data, h1, h2]
  · intro f role ra cb h1 h2
    simp [ModelField.data, h1, h2]

/-- Witness for C10: role 999 is unmapped, so `data` gives `None` and
`set_data` gives `False`; role 0 (`DisplayRole`) maps to `display`, a
`FromAttr("name")`, resolved from the user data; role 2 (`EditRole`) maps
to `edit`, a callback returning 3. -/
theorem claim_C10_unmapped_role_defensive_return_witness :
    fldJohn.data 999 = some PyVal.none ∧
    fldJohn.set_data (PyVal.str "x") 999 = some (PyVal.bool false, fldJohn) ∧
    fldJohn.data 0 = fldJohn.user_data.attrs "name" ∧
    fldJohn.data 2 = some (PyVal.int 3) := by
  refine ⟨?_, ?_, ?_, ?_⟩
  · exact claim_C10_unmapped_role_defensive_return.1 fldJohn 999 (by decide)
  · exact claim_C10_unmapped_role_defensive_return.2.1 fldJohn (PyVal.str "x") 999 (by decide)
  · exact claim_C10_unmapped_role_defensive_return.2.2.1 fldJohn 0 "display" "name" rfl rfl
  · exact claim_C10_unmapped_role_defensive_return.2.2.2 fldJohn 2 "edit"
      (fun _ => PyVal.int 3) rfl rfl

/-- C1 (code bug): `removeRows` reads `child_records[row_number]` from the
list it is shrinking.  On three root records, `removeRows(0, 2)` removes
records 0 and 2 and keeps record 1 — not the two consecutive rows starting
at 0 — though it still returns `True` and shrinks the row count by 2.  On
two root records, `removeRows(0, 2)` raises `IndexError` (`none`) after
removing only record 0.  Invalid ranges do return `False` and leave the
model unchanged, and `insert_records` does return `True` and grow the row
count by the number of records, as the claim states. -/
theorem claim_C1_removeRows_removes_wrong_rows :
    (EasyModel.removeRows cThree 0 2 QModelIndex.invalid).map
        (fun p => (p.1, p.2.rootChildren)) = some (true, [1]) ∧
    EasyModel.removeRows cPair 0 2 QModelIndex.invalid = none ∧
    (EasyModel.removeRows cThree 1 5 QModelIndex.invalid).map
        (fun p => (p.1, p.2.rootChildren)) = some (false, [0, 1, 2]) ∧
    (EasyModel.insert_records cThree [7, 8] 1 QModelIndex.invalid).1 = true ∧
    (EasyModel.insert_records cThree [7, 8] 1 QModelIndex.invalid).2.rootChildren
      = [0, 7, 8, 1, 2] :=
  ⟨rfl, rfl, rfl, rfl, rfl⟩

/-- C3 (code bug): with `search_parents=False` and `search_children=True`,
`filterAcceptsRow` rejects a row whose record fails the search even though
a descendant record passes: the early `return accepted` when
`search_parents` is false skips the descendant search entirely,
contradicting the documented meaning of `search_children`.  The same
configuration with `search_parents=True` accepts the row through the
descendant search. -/
theorem claim_C3_descendant_search_skipped_without_search_parents :
    EasySearchModel.filterAcceptsRow cChain pfOnlyOne false true (-1) 5 0
        QModelIndex.invalid = some false ∧
    pfOnlyOne 0 = false ∧
    pfOnlyOne 1 = true ∧
    IsDescendant cChain 0 1 ∧
    EasySearchModel.filterAcceptsRow cChain pfOnlyOne true true (-1) 5 0
        QModelIndex.invalid = some true :=
  ⟨rfl, rfl, rfl, IsDescendant.direct (by simp [cChain]), rfl⟩

/-- C5: index round-tripping.  (a) For a valid parent index `p` made at
column 0 for record `P` — with `p`'s row equal to `P`'s position in its
sibling list, as `createIndex` is always called in the source — and a child
record `R` at row `r` under `P` with a field at column 0,
`parent(index(r, 0, p)) = p`.  (b) `parent` of the invalid index is the
invalid index.  (c) `parent` of an index whose record sits at the root of
the collection is the invalid index. -/
theorem claim_C5_index_parent_roundtrip :
    (∀ (c : ModelCollection) (P R rP : Nat) (r : Int),
      c.recParent R = some P →
      pyGet (c.recChildren P) r = some R →
      (pyGet (c.recFields R) 0).isSome = true →
      P ∈ grandparentChildren c P →
      (grandparentChildren c P).indexOf P = rP →
      EasyModel.parent c (EasyModel.index c r 0 (QModelIndex.mk rP 0 P)) =
        some (QModelIndex.mk rP 0 P)) ∧
    (∀ c : ModelCollection,
      EasyModel.parent c QModelIndex.invalid = some QModelIndex.invalid) ∧
    (∀ (c : ModelCollection) (row col : Int) (rid : Nat),
      c.recParent rid = none →
      EasyModel.parent c (QModelIndex.mk row col rid) = some QModelIndex.invalid) := by
  refine ⟨?_, ?_, ?_⟩
  · intro c P R rP r hRP hR hf hmem hpos
    have hidx : EasyModel.index c r 0 (QModelIndex.mk (rP : Int) 0 P)
        = QModelIndex.mk r 0 R := by
      unfold EasyModel.index EasyModel.hasIndex
      simp [EasyModel.parentChildrenList, hR, hf]
    rw [hidx]
    unfold EasyModel.parent
    simp [hRP, hmem, hpos]
  · intro c
    rfl
  · intro c row col rid h
    unfold EasyModel.parent
    simp [h]

/-- Witness for C5: in the three-level chain, the parent of
`index(0, 0, p)` for `p = createIndex(0, 0, record 0)` is `p` again, the
parent of the invalid index is invalid, and the parent of an index at root
record 0 is invalid. -/
theorem claim_C5_index_parent_roundtrip_witness :
    EasyModel.parent cChain (EasyModel.index cChain 0 0 (QModelIndex.mk 0 0 0))
      = some (QModelIndex.mk 0 0 0) ∧
    EasyModel.parent cChain QModelIndex.invalid = some QModelIndex.invalid ∧
    EasyModel.parent cChain (QModelIndex.mk 0 0 0) = some QModelIndex.invalid := by
  refine ⟨?_, claim_C5_index_parent_roundtrip.2.1 cChain, ?_⟩
  · exact claim_C5_index_parent_roundtrip.1 cChain 0 1 0 0 rfl rfl rfl
      (by decide) (by decide)
  · exact claim_C5_index_parent_roundtrip.2.2 cChain 0 0 0 rfl

/-- C8 counterexample: the `_filter_cache` dict is keyed by record only, not
by column.  After `record_passes_filter(record 0, column 0)` caches `True`,
a call for the *same record at column 1* — same search term, unchanged
records — returns the cached `True` although the uncached computation for
column 1 is `False`. -/
theorem claim_C8_cache_ignores_column_counterexample :
    (EasySearchModel.record_passes_filter envTwoCols mCached 0 1).map (fun p => p.1)
      = some true ∧
    EasySearchModel.uncachedPasses envTwoCols mCached.search_func mCached.search_for 0 1
      = some false ∧
    EasySearchModel.record_passes_filter envTwoCols mFresh 0 0 = some (true, mCached) ∧
    mCached.search_for = mFresh.search_for :=
  ⟨rfl, rfl, rfl, rfl⟩

/-- C8 (amended): for a fixed search term, unchanged records, and a fixed
filter column, `record_passes_filter` agrees with the uncached computation:
whenever every cache entry agrees with the uncached result for that column,
a call returns exactly the uncached result, preserves that coherence, and
leaves the term untouched; assigning `search_for` (also via
`set_search_value`) or calling `flush_filter_cache` empties the cache —
making any state coherent — so every subsequent result reflects the new
search term. -/
theorem claim_C8_amended_cache_transparency :
    (∀ (env : Nat → List Nat) (m : EasySearchModel.SearchState) (col : Int)
        (rec : Nat) (b : Bool) (m' : EasySearchModel.SearchState),
      EasySearchModel.CoherentAt env m col →
      EasySearchModel.record_passes_filter env m rec col = some (b, m') →
      EasySearchModel.uncachedPasses env m.search_func m.search_for rec col = some b ∧
      EasySearchModel.CoherentAt env m' col ∧
      m'.search_for = m.search_for ∧ m'.search_func = m.search_func) ∧
    (∀ (env : Nat → List Nat) (m : EasySearchModel.SearchState) (col : Int)
        (v : Option Nat),
      (EasySearchModel.setSearchFor m v).search_for = v ∧
      (EasySearchModel.set_search_value m v).filter_cache = (fun _ => none) ∧
      EasySearchModel.CoherentAt env (EasySearchModel.setSearchFor m v) col) ∧
    (∀ (env : Nat → List Nat) (m : EasySearchModel.SearchState) (col : Int),
      (EasySearchModel.flush_filter_cache m).filter_cache = (fun _ => none) ∧
      EasySearchModel.CoherentAt env (EasySearchModel.flush_filter_cache m) col) := by
  refine ⟨?_, ?_, ?_⟩
  · intro env m col rec b m' hcoh hrpf
    unfold EasySearchModel.record_passes_filter at hrpf
    cases hc : m.filter_cache rec with
    | some b0 =>
      simp only [hc] at hrpf
      obtain ⟨hb, hm⟩ : b0 = b ∧ m = m' := by simpa using hrpf
      subst hb; subst hm
      exact ⟨hcoh rec b0 hc, hcoh, rfl, rfl⟩
    | none =>
      simp only [hc] at hrpf
      cases hu : EasySearchModel.uncachedPasses env m.search_func m.search_for rec col with
      | none => simp [hu] at hrpf
      | some b0 =>
        simp only [hu] at hrpf
        rw [Option.some.injEq, Prod.mk.injEq] at hrpf
        obtain ⟨hb, hm⟩ := hrpf
        subst hb
        subst hm
        refine ⟨rfl, ?_, rfl, rfl⟩
        intro r b' hb'
        have hb2 : Function.update m.filter_cache rec (some b0) r = some b' := hb'
        show EasySearchModel.uncachedPasses env m.search_func m.search_for r col = some b'
        by_cases hr : r = rec
        · subst hr
          rw [Function.update_same] at hb2
          obtain rfl : b0 = b' := by simpa using hb2
          exact hu
        · rw [Function.update_noteq hr] at hb2
          exact hcoh r b' hb2
  · intro env m col v
    refine ⟨rfl, rfl, ?_⟩
    intro r b hb
    simp [EasySearchModel.setSearchFor] at hb
  · intro env m col
    refine ⟨rfl, ?_⟩
    intro r b hb
    simp [EasySearchModel.flush_filter_cache] at hb

/-- Witness for C8 (amended): starting from the fresh, coherent state,
`record_passes_filter(record 0, column 0)` returns the uncached `True` and
leaves a coherent cache; assigning a new term resets the term. -/
theorem claim_C8_amended_cache_transparency_witness :
    EasySearchModel.uncachedPasses envTwoCols mFresh.search_func mFresh.search_for 0 0
      = some true ∧
    EasySearchModel.CoherentAt envTwoCols mCached 0 ∧
    (EasySearchModel.setSearchFor mFresh (some 2)).search_for = some 2 := by
  have hcoh : EasySearchModel.CoherentAt envTwoCols mFresh 0 := by
    intro r b hb
    simp [mFresh] at hb
  have h := claim_C8_amended_cache_transparency.1 envTwoCols mFresh 0 0 true mCached
    hcoh rfl
  exact ⟨h.1, h.2.1,
    (claim_C8_amended_cache_transparency.2.1 envTwoCols mFresh 0 (some 2)).1⟩

/-- Membership in a list with one element inserted at any cut point. -/
theorem mem_insertCut {xs : List α} {j : Nat} {x a : α} :
    a ∈ xs.take j ++ x :: xs.drop j ↔ a = x ∨ a ∈ xs := by
  constructor
  · intro h
    rcases List.mem_append.mp h with h1 | h2
    · exact Or.inr (List.take_subset _ _ h1)
    · rcases List.mem_cons.mp h2 with h3 | h4
      · exact Or.inl h3
      · exact Or.inr (List.drop_subset _ _ h4)
  · intro h
    rcases h with rfl | h2
    · exact List.mem_append.mpr (Or.inr (List.mem_cons_self _ _))
    · have h3 : a ∈ xs.take j ++ xs.drop j := by
        rw [List.take_append_drop]
        exact h2
      rcases List.mem_append.mp h3 with h4 | h5
      · exact List.mem_append.mpr (Or.inl h4)
      · exact List.mem_append.mpr (Or.inr (List.mem_cons_of_mem _ h5))

/-- Membership in a Python-style insertion. -/
theorem mem_pyInsert {xs : List α} {i : Int} {x a : α} :
    a ∈ pyInsert xs i x ↔ a = x ∨ a ∈ xs := by
  unfold pyInsert
  exact mem_insertCut

/-- Inserting a fresh element at any cut point preserves `Nodup`. -/
theorem nodup_insertCut {xs : List α} {j : Nat} {x : α}
    (h : xs.Nodup) (hx : x ∉ xs) : (xs.take j ++ x :: xs.drop j).Nodup := by
  have h2 : (xs.take j ++ xs.drop j).Nodup := by
    rw [List.take_append_drop]
    exact h
  rcases List.nodup_append.mp h2 with ⟨ht, hd, hdisj⟩
  refine List.nodup_append.mpr ⟨ht, ?_, ?_⟩
  · exact List.nodup_cons.mpr ⟨fun hm => hx (List.drop_subset _ _ hm), hd⟩
  · rw [List.disjoint_cons_right]
    exact ⟨fun hm => hx (List.take_subset _ _ hm), hdisj⟩

/-- A Python-style insertion of a fresh element preserves `Nodup`. -/
theorem nodup_pyInsert {xs : List α} {i : Int} {x : α}
    (h : xs.Nodup) (hx : x ∉ xs) : (pyInsert xs i x).Nodup := by
  unfold pyInsert
  exact nodup_insertCut h hx

/-- Attaching a detached record `x` under record `r` — replacing `r`'s child
list by any list `L` whose members are `x` plus the old children, without
duplicates, and pointing `x.parent` at `r` — preserves the tree invariant.
This is the common shape of `ModelRecord.append_record` and
`ModelRecord.insert_record`. -/
theorem treeInv_attach {c : ModelCollection} {r x : Nat} {L : List Nat}
    (hInv : TreeInv c) (hdet : Detached c x)
    (hmem : ∀ i, i ∈ L ↔ i = x ∨ i ∈ c.recChildren r)
    (hnodup : L.Nodup) :
    TreeInv { c with recChildren := Function.update c.recChildren r L,
                     recParent := Function.update c.recParent x (some r) } := by
  obtain ⟨h1, h2, h3, h4⟩ := hInv
  obtain ⟨hd1, hd2⟩ := hdet
  refine ⟨?_, ?_, h3, ?_⟩
  · intro i hi
    show Function.update c.recParent x (some r) i = none
    rcases eq_or_ne i x with rfl | hne
    · exact absurd hi hd1
    · rw [Function.update_noteq hne]
      exact h1 i hi
  · intro s i hi
    show Function.update c.recParent x (some r) i = some s
    have hchil : i ∈ Function.update c.recChildren r L s := hi
    by_cases hs : s = r
    · subst hs
      rw [Function.update_same] at hchil
      rcases (hmem i).mp hchil with rfl | hin
      · rw [Function.update_same]
      · have hne : i ≠ x := fun h => (hd2 s) (h ▸ hin)
        rw [Function.update_noteq hne]
        exact h2 _ _ hin
    · rw [Function.update_noteq hs] at hchil
      have hne : i ≠ x := fun h => (hd2 s) (h ▸ hchil)
      rw [Function.update_noteq hne]
      exact h2 _ _ hchil
  · intro s
    show (Function.update c.recChildren r L s).Nodup
    by_cases hs : s = r
    · subst hs
      rw [Function.update_same]
      exact hnodup
    · rw [Function.update_noteq hs]
      exact h4 s

/-- Attaching a detached record `x` at the root — replacing the root list by
any duplicate-free list of `x` plus the old roots and clearing `x.parent` —
preserves the tree invariant.  This is the common shape of the root branches
of `ModelCollection.append_record` and `ModelCollection.insert_record`. -/
theorem treeInv_root_attach {c : ModelCollection} {x : Nat} {L : List Nat}
    (hInv : TreeInv c) (hdet : Detached c x)
    (hmem : ∀ i, i ∈ L ↔ i = x ∨ i ∈ c.rootChildren)
    (hnodup : L.Nodup) :
    TreeInv { c with rootChildren := L,
                     recParent := Function.update c.recParent x none } := by
  obtain ⟨h1, h2, h3, h4⟩ := hInv
  obtain ⟨hd1, hd2⟩ := hdet
  refine ⟨?_, ?_, hnodup, h4⟩
  · intro i hi
    show Function.update c.recParent x none i = none
    rcases eq_or_ne i x with rfl | hne
    · rw [Function.update_same]
    · rw [Function.update_noteq hne]
      rcases (hmem i).mp hi with h | h
      · exact absurd h hne
      · exact h1 i h
  · intro s i hi
    show Function.update c.recParent x none i = some s
    have hne : i ≠ x := fun h => (hd2 s) (h ▸ hi)
    rw [Function.update_noteq hne]
    exact h2 _ _ hi

/-- A successful `ModelCollection.remove_record` keeps the tree invariant
and leaves the removed record detached. -/
theorem treeInv_remove {c c1 : ModelCollection} {rid : Nat}
    (hInv : TreeInv c) (hrm : c.remove_record rid = some c1) :
    TreeInv c1 ∧ Detached c1 rid := by
  obtain ⟨h1, h2, h3, h4⟩ := hInv
  unfold ModelCollection.remove_record at hrm
  cases hp : c.recParent rid with
  | none =>
    rw [hp] at hrm
    by_cases hin : rid ∈ c.rootChildren
    · rw [if_pos hin, Option.some.injEq] at hrm
      subst hrm
      refine ⟨⟨?_, h2, List.Nodup.erase _ h3, h4⟩, ?_, ?_⟩
      · intro i hi
        exact h1 i (List.mem_of_mem_erase hi)
      · intro hmem
        exact absurd ((List.Nodup.mem_erase_iff h3).mp hmem).1 (by simp)
      · intro r hmem
        have := h2 r rid hmem
        rw [hp] at this
        cases this
    · rw [if_neg hin] at hrm
      cases hrm
  | some p =>
    rw [hp, Option.some.injEq] at hrm
    subst hrm
    refine ⟨⟨h1, ?_, h3, ?_⟩, ?_, ?_⟩
    · intro s i hi
      have hchil : i ∈ Function.update c.recChildren p ((c.recChildren p).erase rid) s := hi
      by_cases hs : s = p
      · subst hs
        rw [Function.update_same] at hchil
        exact h2 _ _ (List.mem_of_mem_erase hchil)
      · rw [Function.update_noteq hs] at hchil
        exact h2 _ _ hchil
    · intro s
      show (Function.update c.recChildren p ((c.recChildren p).erase rid) s).Nodup
      by_cases hs : s = p
      · subst hs
        rw [Function.update_same]
        exact List.Nodup.erase _ (h4 _)
      · rw [Function.update_noteq hs]
        exact h4 s
    · intro hmem
      have := h1 rid hmem
      rw [hp] at this
      cases this
    · intro r hmem
      have hchil : rid ∈ Function.update c.recChildren p ((c.recChildren p).erase rid) r := hmem
      by_cases hr : r = p
      · subst hr
        rw [Function.update_same] at hchil
        exact absurd ((List.Nodup.mem_erase_iff (h4 _)).mp hchil).1 (by simp)
      · rw [Function.update_noteq hr] at hchil
        have := h2 r rid hchil
        rw [hp, Option.some.injEq] at this
        exact hr this.symm

/-- C9: every operation that places a record under a parent —
`ModelRecord.append_record`, `ModelRecord.insert_record`,
`ModelCollection.append_record`, `ModelCollection.insert_record` (root or
nested), and `ModelCollection.reparent_record` — preserves the tree
invariant: each child's `parent` pointer names the record holding it, root
records have `parent = None`, and no child list has duplicates.  The record
being placed by the first four operations is required to be detached (a
fresh record, as the API constructs them); `reparent_record` detaches its
argument itself. -/
theorem claim_C9_tree_invariant_preserved :
    (∀ (c : ModelCollection) (r x : Nat), TreeInv c → Detached c x →
      TreeInv (ModelRecord.append_record c r x)) ∧
    (∀ (c : ModelCollection) (r : Nat) (pos : Int) (x : Nat), TreeInv c → Detached c x →
      TreeInv (ModelRecord.insert_record c r pos x)) ∧
    (∀ (c : ModelCollection) (rid : Nat) (parent : Option Nat) (c' : ModelCollection),
      TreeInv c → Detached c rid → c.append_record rid parent = some c' → TreeInv c') ∧
    (∀ (c : ModelCollection) (pos : Int) (rid : Nat) (parent : Option Nat),
      TreeInv c → Detached c rid → TreeInv (c.insert_record pos rid parent)) ∧
    (∀ (c : ModelCollection) (child newParent : Nat) (c' : ModelCollection),
      TreeInv c → c.reparent_record child newParent = some c' → TreeInv c') := by
  have hrecins : ∀ (c : ModelCollection) (r : Nat) (pos : Int) (x : Nat),
      TreeInv c → Detached c x → TreeInv (ModelRecord.insert_record c r pos x) := by
    intro c r pos x hInv hdet
    exact treeInv_attach hInv hdet (fun i => mem_pyInsert)
      (nodup_pyInsert (hInv.2.2.2 r) (hdet.2 r))
  have hrecapp : ∀ (c : ModelCollection) (r x : Nat),
      TreeInv c → Detached c x → TreeInv (ModelRecord.append_record c r x) := by
    intro c r x hInv hdet
    refine treeInv_attach hInv hdet (fun i => ?_) ?_
    · simp [or_comm]
    · refine List.nodup_append.mpr ⟨hInv.2.2.2 r, List.nodup_singleton x, ?_⟩
      intro a ha
      simp only [List.mem_singleton]
      exact fun h => (hdet.2 r) (h ▸ ha)
  refine ⟨hrecapp, hrecins, ?_, ?_, ?_⟩
  · intro c rid parent c' hInv hdet happ
    unfold ModelCollection.append_record at happ
    cases hu : ModelCollection.updateDefaultHeaderLabels c.combine_header_labels
        (max (c.recFields rid).length c.column_count) (c.recFields rid)
        c.defaultHeaderLabels with
    | none =>
      cases parent <;>
        · rw [show ∀ z, ModelCollection.updateColumnCount c z =
              { c with column_count := max z c.column_count } from fun _ => rfl] at happ
          simp only [ModelCollection.updateColumnCount, ModelRecord.append_record] at happ
          rw [hu] at happ
          cases happ
    | some labels =>
      cases parent with
      | none =>
        simp only [ModelCollection.updateColumnCount, ModelRecord.append_record] at happ
        rw [hu, Option.some.injEq] at happ
        subst happ
        have := @treeInv_root_attach c rid (c.rootChildren ++ [rid]) hInv hdet
          (fun i => by simp [or_comm])
          (by
            refine List.nodup_append.mpr ⟨hInv.2.2.1, List.nodup_singleton rid, ?_⟩
            intro a ha
            simp only [List.mem_singleton]
            exact fun h => hdet.1 (h ▸ ha))
        exact this
      | some p =>
        simp only [ModelCollection.updateColumnCount, ModelRecord.append_record] at happ
        rw [hu, Option.some.injEq] at happ
        subst happ
        exact hrecapp _ p rid hInv hdet
  · intro c pos rid parent hInv hdet
    unfold ModelCollection.insert_record
    cases parent with
    | none =>
      exact treeInv_root_attach hInv hdet (fun i => mem_pyInsert)
        (nodup_pyInsert hInv.2.2.1 hdet.1)
    | some p =>
      exact hrecins c p pos rid hInv hdet
  · intro c child newParent c' hInv hrep
    unfold ModelCollection.reparent_record at hrep
    cases hrm : c.remove_record child with
    | none =>
      rw [hrm] at hrep
      cases hrep
    | some c1 =>
      rw [hrm, Option.some.injEq] at hrep
      subst hrep
      obtain ⟨hInv1, hdet1⟩ := treeInv_remove hInv hrm
      exact hrecapp c1 newParent child hInv1 hdet1

/-- Witness for C9: all five operations applied to a one-root collection
with the fresh record 5 (or, for reparenting, moving root record 0 under
record 1) preserve the tree invariant. -/
theorem claim_C9_tree_invariant_preserved_witness :
    TreeInv (ModelRecord.append_record cOneRoot 0 5) ∧
    TreeInv (ModelRecord.insert_record cOneRoot 0 0 5) ∧
    cOneRoot.append_record 5 none = some cRootApp ∧ TreeInv cRootApp ∧
    TreeInv (cOneRoot.insert_record 0 5 none) ∧
    cOneRoot.reparent_record 0 1 = some cRootRep ∧ TreeInv cRootRep := by
  have hInv : TreeInv cOneRoot :=
    ⟨fun i _ => rfl, fun r i hi => absurd hi (List.not_mem_nil i),
     List.nodup_singleton 0, fun _ => List.nodup_nil⟩
  have hdet : Detached cOneRoot 5 :=
    ⟨by decide, fun r => List.not_mem_nil 5⟩
  refine ⟨?_, ?_, rfl, ?_, ?_, rfl, ?_⟩
  · exact claim_C9_tree_invariant_preserved.1 cOneRoot 0 5 hInv hdet
  · exact claim_C9_tree_invariant_preserved.2.1 cOneRoot 0 0 5 hInv hdet
  · exact claim_C9_tree_invariant_preserved.2.2.1 cOneRoot 5 none cRootApp hInv hdet rfl
  · exact claim_C9_tree_invariant_preserved.2.2.2.1 cOneRoot 0 5 none hInv hdet
  · exact claim_C9_tree_invariant_preserved.2.2.2.2 cOneRoot 0 1 cRootRep hInv rfl

/-- C7 counterexample: record 2 (three fields) is attached to record 1 (one
field) with `ModelRecord.append_record`; appending record 1 through the
collection then counts only record 1's fields, so the reachable record 2
violates `len(record.fields) <= column_count`. -/
theorem claim_C7_reachable_record_exceeds_column_count :
    cSub.append_record 1 none = some cSub' ∧
    Reach cSub' 2 ∧
    (cSub'.recFields 2).length = 3 ∧
    cSub'.column_count = 1 ∧
    ¬ ((cSub'.recFields 2).length ≤ cSub'.column_count) := by
  refine ⟨rfl, ?_, rfl, rfl, by decide⟩
  exact Reach.child (Reach.root (show (1 : Nat) ∈ cSub'.rootChildren by decide))
    (show (2 : Nat) ∈ cSub'.recChildren 1 by decide)

/-- One collection operation keeps the record heap's fields unchanged, never
lowers `column_count`, and raises it at least to the operated record's field
count. -/
theorem applyOp_fields_count {c c' : ModelCollection} {op : ColOp}
    (h : applyOp c op = some c') :
    c'.recFields = c.recFields ∧ c.column_count ≤ c'.column_count ∧
    (c.recFields op.rid).length ≤ c'.column_count := by
  cases op with
  | append rid parent =>
    unfold applyOp ModelCollection.append_record at h
    cases hu : ModelCollection.updateDefaultHeaderLabels c.combine_header_labels
        (max (c.recFields rid).length c.column_count) (c.recFields rid)
        c.defaultHeaderLabels with
    | none =>
      cases parent <;>
        · simp only [ModelCollection.updateColumnCount, ModelRecord.append_record] at h
          rw [hu] at h
          cases h
    | some labels =>
      cases parent <;>
        · simp only [ModelCollection.updateColumnCount, ModelRecord.append_record] at h
          rw [hu, Option.some.injEq] at h
          subst h
          exact ⟨rfl, le_max_right _ _, le_max_left _ _⟩
  | insert pos rid parent =>
    unfold applyOp at h
    rw [Option.some.injEq] at h
    subst h
    unfold ModelCollection.insert_record
    cases parent <;>
      exact ⟨rfl, le_max_right _ _, le_max_left _ _⟩

/-- A sequence of collection operations keeps the fields unchanged and never
lowers `column_count`. -/
theorem applyOps_fields_mono {ops : List ColOp} :
    ∀ {c c' : ModelCollection}, applyOps c ops = some c' →
      c'.recFields = c.recFields ∧ c.column_count ≤ c'.column_count := by
  induction ops with
  | nil =>
    intro c c' h
    rw [show applyOps c [] = some c from rfl, Option.some.injEq] at h
    subst h
    exact ⟨rfl, le_refl _⟩
  | cons op rest ih =>
    intro c c' h
    unfold applyOps at h
    cases ha : applyOp c op with
    | none => rw [ha] at h; cases h
    | some c1 =>
      rw [ha] at h
      obtain ⟨hf1, hm1, _⟩ := applyOp_fields_count ha
      obtain ⟨hf2, hm2⟩ := ih h
      exact ⟨hf2.trans hf1, hm1.trans hm2⟩

/-- C7 (amended): after `ModelCollection.append_record` or
`ModelCollection.insert_record`, `column_count` equals the maximum of its
previous value and the number of fields of the added record; consequently
every record that was itself appended or inserted *through the collection*
satisfies `len(record.fields) <= column_count` from then on (`column_count`
never decreases under these operations).  Descendants attached only via
`ModelRecord` methods are not counted — see the counterexample. -/
theorem claim_C7_amended_column_count_tracking :
    (∀ (c : ModelCollection) (rid : Nat) (parent : Option Nat) (c' : ModelCollection),
      c.append_record rid parent = some c' →
      c'.column_count = max (c.recFields rid).length c.column_count) ∧
    (∀ (c : ModelCollection) (pos : Int) (rid : Nat) (parent : Option Nat),
      (c.insert_record pos rid parent).column_count
        = max (c.recFields rid).length c.column_count) ∧
    (∀ (c : ModelCollection) (ops : List ColOp) (c' : ModelCollection),
      applyOps c ops = some c' →
      ∀ op ∈ ops, (c'.recFields op.rid).length ≤ c'.column_count) := by
  refine ⟨?_, ?_, ?_⟩
  · intro c rid parent c' h
    unfold ModelCollection.append_record at h
    cases hu : ModelCollection.updateDefaultHeaderLabels c.combine_header_labels
        (max (c.recFields rid).length c.column_count) (c.recFields rid)
        c.defaultHeaderLabels with
    | none =>
      cases parent <;>
        · simp only [ModelCollection.updateColumnCount, ModelRecord.append_record] at h
          rw [hu] at h
          cases h
    | some labels =>
      cases parent <;>
        · simp only [ModelCollection.updateColumnCount, ModelRecord.append_record] at h
          rw [hu, Option.some.injEq] at h
          subst h
          rfl
  · intro c pos rid parent
    unfold ModelCollection.insert_record
    cases parent <;> rfl
  · intro c ops
    induction ops generalizing c with
    | nil =>
      intro c' _ op hop
      exact absurd hop (List.not_mem_nil op)
    | cons op rest ih =>
      intro c' h op' hop'
      unfold applyOps at h
      cases ha : applyOp c op with
      | none => rw [ha] at h; cases h
      | some c1 =>
        rw [ha] at h
        rcases List.mem_cons.mp hop' with rfl | hrest
        · obtain ⟨hf1, _, hcnt⟩ := applyOp_fields_count ha
          obtain ⟨hf2, hm2⟩ := applyOps_fields_mono h
          rw [hf2, hf1]
          exact hcnt.trans hm2
        · exact ih c1 c' h op' hrest

/-- Witness for C7 (amended): appending record 0 to the empty labelled
collection sets `column_count` to `max(1, 0)`, and after the two-operation
trace both operated records satisfy the field-count bound. -/
theorem claim_C7_amended_column_count_tracking_witness :
    cLabels1.column_count = max (cLabels.recFields 0).length cLabels.column_count ∧
    (cEmpty.insert_record 0 1 none).column_count
      = max (cEmpty.recFields 1).length cEmpty.column_count ∧
    (cTrace.recFields 0).length ≤ cTrace.column_count ∧
    (cTrace.recFields 1).length ≤ cTrace.column_count := by
  refine ⟨?_, ?_, ?_, ?_⟩
  · exact claim_C7_amended_column_count_tracking.1 cLabels 0 none cLabels1 rfl
  · exact claim_C7_amended_column_count_tracking.2.1 cEmpty 0 1 none
  · exact claim_C7_amended_column_count_tracking.2.2 cEmpty
      [ColOp.append 0 none, ColOp.insert 0 1 none] cTrace rfl
      (ColOp.append 0 none) (List.mem_cons_self _ _)
  · exact claim_C7_amended_column_count_tracking.2.2 cEmpty
      [ColOp.append 0 none, ColOp.insert 0 1 none] cTrace rfl
      (ColOp.insert 0 1 none) (by simp)

/-- Characterization of the `_update_default_header_labels` loop: on
success, entries below the loop start are untouched, an existing column `j`
visited by the loop ends up as the `columnTransition` of its old value, and
a fresh column `j` (at or beyond the captured `header_label_len`) ends up as
the new field's label. -/
theorem updateLabelsAux_spec (combine : Bool) (fieldLabels : List (Option String))
    (staleLen : Nat) :
    ∀ (count : Nat) (labels : List (Option String)) (i : Nat) (out : List (Option String)),
      labels.length = max staleLen i →
      ModelCollection.updateLabelsAux combine fieldLabels staleLen labels i count = some out →
      (∀ j, j < i → out.get? j = labels.get? j) ∧
      (∀ j v, i ≤ j → j < i + count → j < staleLen → labels.get? j = some v →
        out.get? j = some (ModelCollection.columnTransition combine v (fieldLabels.get? j))) ∧
      (∀ j, i ≤ j → j < i + count → staleLen ≤ j → out.get? j = fieldLabels.get? j) := by
  intro count
  induction count with
  | zero =>
    intro labels i out hlen hres
    rw [show ModelCollection.updateLabelsAux combine fieldLabels staleLen labels i 0
        = some labels from rfl, Option.some.injEq] at hres
    subst hres
    refine ⟨fun j _ => rfl, ?_, ?_⟩
    · intro j v hij hjc _ _
      exact absurd hjc (by omega)
    · intro j hij hjc _
      exact absurd hjc (by omega)
  | succ count ih =>
    intro labels i out hlen hres
    simp only [ModelCollection.updateLabelsAux] at hres
    by_cases hcase : staleLen ≤ i
    · rw [if_pos hcase] at hres
      cases hfl : fieldLabels.get? i with
      | none => rw [hfl] at hres; cases hres
      | some fl =>
        rw [hfl] at hres
        have hleni : labels.length = i := by omega
        have hlen' : (labels ++ [fl]).length = max staleLen (i + 1) := by
          simp only [List.length_append, List.length_singleton, hleni]
          omega
        obtain ⟨ha, hb, hc⟩ := ih (labels ++ [fl]) (i + 1) out hlen' hres
        refine ⟨?_, ?_, ?_⟩
        · intro j hj
          rw [ha j (by omega)]
          exact List.get?_append (by omega)
        · intro j v hij _ hjs _
          exact absurd hjs (by omega)
        · intro j hij hjc hjs
          rcases Nat.eq_or_lt_of_le hij with heq | hlt
          · rw [← heq]
            rw [ha i (by omega), List.get?_append_right (by omega), hleni,
              Nat.sub_self, hfl]
            rfl
          · exact hc j (by omega) (by omega) hjs
    · rw [if_neg hcase] at hres
      have hstale : i < staleLen := Nat.lt_of_not_le hcase
      have hleni : labels.length = staleLen := by omega
      cases hget : labels.get? i with
      | none =>
        exfalso
        rw [List.get?_eq_none] at hget
        omega
      | some old =>
        rw [hget] at hres
        have hlen' : (labels.set i
            (ModelCollection.columnTransition combine old (fieldLabels.get? i))).length
            = max staleLen (i + 1) := by
          rw [List.length_set]
          omega
        obtain ⟨ha, hb, hc⟩ := ih _ (i + 1) out hlen' hres
        refine ⟨?_, ?_, ?_⟩
        · intro j hj
          rw [ha j (by omega)]
          exact List.get?_set_ne _ labels (by omega)
        · intro j v hij hjc hjs hv
          rcases Nat.eq_or_lt_of_le hij with heq | hlt
          · rw [← heq] at hv ⊢
            rw [hget, Option.some.injEq] at hv
            rw [ha i (by omega), List.get?_set_eq_of_lt _ (by omega), hv]
          · have hv' : (labels.set i
                (ModelCollection.columnTransition combine old (fieldLabels.get? i))).get? j
                = some v := by
              rw [List.get?_set_ne _ labels (by omega)]
              exact hv
            exact hb j v (by omega) (by omega) hjs hv'
        · intro j hij hjc hjs
          exact hc j (by omega) (by omega) hjs

/-- On success, `ModelCollection.append_record` sets the default header
labels to the result of `_update_default_header_labels` run with the updated
column count over the appended record's fields. -/
theorem append_record_labels {c c' : ModelCollection} {rid : Nat} {parent : Option Nat}
    (h : c.append_record rid parent = some c') :
    ModelCollection.updateDefaultHeaderLabels c.combine_header_labels
      (max (c.recFields rid).length c.column_count) (c.recFields rid)
      c.defaultHeaderLabels = some c'.defaultHeaderLabels := by
  unfold ModelCollection.append_record at h
  cases hu : ModelCollection.updateDefaultHeaderLabels c.combine_header_labels
      (max (c.recFields rid).length c.column_count) (c.recFields rid)
      c.defaultHeaderLabels with
  | none =>
    cases parent <;>
      · simp only [ModelCollection.updateColumnCount, ModelRecord.append_record] at h
        rw [hu] at h
        cases h
  | some labels =>
    cases parent <;>
      · simp only [ModelCollection.updateColumnCount, ModelRecord.append_record] at h
        rw [hu, Option.some.injEq] at h
        subst h
        rfl

/-- C6: header-label merging by `ModelCollection.append_record`.  (a) With
`combine_header_labels` True, a field labelling column `i` with `L2` while
the current default label is `L1` (and `L1` does not end with `L2`) turns
the default label into `"L1 | L2"`.  (b) With `combine_header_labels` False
the first-assigned `L1` is kept.  (c) A column beyond the current label
list takes the new field's label.  (d) A column whose label slot was never
assigned (`None`) takes the new field's label. -/
theorem claim_C6_header_label_merging :
    (∀ (c c' : ModelCollection) (rid : Nat) (parent : Option Nat) (i : Nat) (L1 L2 : String),
      c.append_record rid parent = some c' →
      c.defaultHeaderLabels.get? i = some (some L1) →
      (c.recFields rid).get? i = some (some L2) →
      ModelCollection.strEndsWith L1 L2 = false →
      c.combine_header_labels = true →
      c'.defaultHeaderLabels.get? i = some (some (L1 ++ " | " ++ L2))) ∧
    (∀ (c c' : ModelCollection) (rid : Nat) (parent : Option Nat) (i : Nat) (L1 L2 : String),
      c.append_record rid parent = some c' →
      c.defaultHeaderLabels.get? i = some (some L1) →
      (c.recFields rid).get? i = some (some L2) →
      ModelCollection.strEndsWith L1 L2 = false →
      c.combine_header_labels = false →
      c'.defaultHeaderLabels.get? i = some (some L1)) ∧
    (∀ (c c' : ModelCollection) (rid : Nat) (parent : Option Nat) (i : Nat)
        (fl : Option String),
      c.append_record rid parent = some c' →
      c.defaultHeaderLabels.length ≤ i →
      (c.recFields rid).get? i = some fl →
      c'.defaultHeaderLabels.get? i = some fl) ∧
    (∀ (c c' : ModelCollection) (rid : Nat) (parent : Option Nat) (i : Nat) (L2 : String),
      c.append_record rid parent = some c' →
      c.defaultHeaderLabels.get? i = some none →
      (c.recFields rid).get? i = some (some L2) →
      c'.defaultHeaderLabels.get? i = some (some L2)) := by
  have main : ∀ (c c' : ModelCollection) (rid : Nat) (parent : Option Nat) (i : Nat)
      (v : Option String),
      c.append_record rid parent = some c' →
      c.defaultHeaderLabels.get? i = some v →
      i < (c.recFields rid).length →
      c'.defaultHeaderLabels.get? i
        = some (ModelCollection.columnTransition c.combine_header_labels v
            ((c.recFields rid).get? i)) := by
    intro c c' rid parent i v happ hold hiF
    have hu := append_record_labels happ
    unfold ModelCollection.updateDefaultHeaderLabels at hu
    have hiLt : i < c.defaultHeaderLabels.length := by
      by_contra hle
      rw [List.get?_eq_none.mpr (by omega)] at hold
      cases hold
    obtain ⟨-, hb, -⟩ := updateLabelsAux_spec c.combine_header_labels (c.recFields rid)
      c.defaultHeaderLabels.length _ c.defaultHeaderLabels 0 c'.defaultHeaderLabels
      (by omega) hu
    exact hb i v (Nat.zero_le i) (by omega) hiLt hold
  have fresh : ∀ (c c' : ModelCollection) (rid : Nat) (parent : Option Nat) (i : Nat)
      (fl : Option String),
      c.append_record rid parent = some c' →
      c.defaultHeaderLabels.length ≤ i →
      (c.recFields rid).get? i = some fl →
      c'.defaultHeaderLabels.get? i = some fl := by
    intro c c' rid parent i fl happ hge hfield
    have hu := append_record_labels happ
    unfold ModelCollection.updateDefaultHeaderLabels at hu
    have hiF : i < (c.recFields rid).length := by
      by_contra hle
      rw [List.get?_eq_none.mpr (by omega)] at hfield
      cases hfield
    obtain ⟨-, -, hc⟩ := updateLabelsAux_spec c.combine_header_labels (c.recFields rid)
      c.defaultHeaderLabels.length _ c.defaultHeaderLabels 0 c'.defaultHeaderLabels
      (by omega) hu
    rw [hc i (Nat.zero_le i) (by omega) hge]
    exact hfield
  refine ⟨?_, ?_, fresh, ?_⟩
  · intro c c' rid parent i L1 L2 happ hold hfield hend hcomb
    have hiF : i < (c.recFields rid).length := by
      by_contra hle
      rw [List.get?_eq_none.mpr (by omega)] at hfield
      cases hfield
    rw [main c c' rid parent i (some L1) happ hold hiF, hfield]
    simp [ModelCollection.columnTransition, hend, hcomb]
  · intro c c' rid parent i L1 L2 happ hold hfield hend hcomb
    have hiF : i < (c.recFields rid).length := by
      by_contra hle
      rw [List.get?_eq_none.mpr (by omega)] at hfield
      cases hfield
    rw [main c c' rid parent i (some L1) happ hold hiF, hfield]
    simp [ModelCollection.columnTransition, hend, hcomb]
  · intro c c' rid parent i L2 happ hold hfield
    have hiF : i < (c.recFields rid).length := by
      by_contra hle
      rw [List.get?_eq_none.mpr (by omega)] at hfield
      cases hfield
    rw [main c c' rid parent i none happ hold hiF, hfield]
    simp [ModelCollection.columnTransition]

/-- Witness for C6: over the one-column heaps, (a) appending the
"age"-labelled record to the combining collection already labelled "name"
yields "name | age"; (b) with combining disabled "name" is kept; (c) the
first append labels the fresh column "name"; (d) appending the labelled
record to a column whose slot holds `None` labels it "age". -/
theorem claim_C6_header_label_merging_witness :
    cLabels2.defaultHeaderLabels.get? 0 = some (some ("name" ++ " | " ++ "age")) ∧
    cLabelsF2.defaultHeaderLabels.get? 0 = some (some "name") ∧
    cLabels1.defaultHeaderLabels.get? 0 = some (some "name") ∧
    cMixed2.defaultHeaderLabels.get? 0 = some (some "age") := by
  refine ⟨?_, ?_, ?_, ?_⟩
  · exact claim_C6_header_label_merging.1 cLabels1 cLabels2 1 none 0 "name" "age"
      rfl rfl rfl (by decide) rfl
  · exact claim_C6_header_label_merging.2.1 cLabelsF1 cLabelsF2 1 none 0 "name" "age"
      rfl rfl rfl (by decide) rfl
  · exact claim_C6_header_label_merging.2.2.1 cLabels cLabels1 0 none 0 (some "name")
      rfl (by decide) rfl
  · exact claim_C6_header_label_merging.2.2.2 cMixed1 cMixed2 1 none 0 "age"
      rfl rfl rfl


